import Mathlib

/-!
Verification of the `emittance_measurement_4D` scripts (OpenXAL, RTBT 4D
emittance measurement).  The relevant parts of
`lib/analysis.py`, `lib/optics.py` and
`target_image/target_image_analysis.py` are shallowly embedded below:
real-valued numerics are modelled over `ℝ`, quadrupole field bookkeeping
over `ℚ`, and the Jama matrix type as `Matrix (Fin 4) (Fin 4) ℝ`.
The helper module `utils.py` is not part of the provided sources; the few
helpers needed here are modelled from the specification and marked as such.
-/

open Real

noncomputable section

/-! ## Spec-modelled helpers from `utils.py` (module not in the sources) -/

/-- Modelled from the spec: `utils.put_angle_in_range(angle)` wraps an angle
into `[0, 2*pi)`.  The `utils` module itself is not among the provided
source files. -/
def put_angle_in_range (angle : ℝ) : ℝ :=
  angle - 2 * π * ⌊angle / (2 * π)⌋

/-- Modelled from the spec: `utils.radians` converts degrees to radians. -/
def radians (deg : ℝ) : ℝ :=
  deg * π / 180

/-- Modelled from the spec: `utils.diagonal_matrix(values)` builds a diagonal
matrix from the given values. -/
def diagonal_matrix (values : Fin 4 → ℝ) : Matrix (Fin 4) (Fin 4) ℝ :=
  Matrix.diagonal values

/-! ## `lib/optics.py`: `lin_phase_range` -/

/-- The loop body of `lin_phase_range`: starting from the last generated
phase, append `k` further phases, each the wrapped sum of its predecessor
and `step`. -/
def lin_phase_range_aux (step : ℝ) : ℕ → ℝ → List ℝ
  | 0, _ => []
  | k + 1, last =>
      let phase := put_angle_in_range (last + step)
      phase :: lin_phase_range_aux step k phase

/-- Function `lin_phase_range(mu_min, mu_max, n_steps, endpoint=True)` from
`lib/optics.py`.  The first element is `mu_min` itself; every further
element is the wrap of its predecessor plus the step.  (For `n_steps = 1`
with `endpoint` the Python code divides by zero; the claims only concern
`n_steps ≥ 2`.) -/
def lin_phase_range (mu_min mu_max : ℝ) (n_steps : ℕ) (endpoint : Bool := true) :
    List ℝ :=
  let abs_diff := |mu_max - mu_min|
  let abs_diff := if abs_diff > π then 2 * π - abs_diff else abs_diff
  let step := if endpoint then abs_diff / ((n_steps : ℝ) - 1)
              else abs_diff / (n_steps : ℝ)
  mu_min :: lin_phase_range_aux step (n_steps - 1) mu_min

/-! ## Basic lemmas about the wrap and the step generator -/

theorem put_angle_in_range_mem (x : ℝ) :
    put_angle_in_range x ∈ Set.Ico (0 : ℝ) (2 * π) := by
  have h2π : (0 : ℝ) < 2 * π := by positivity
  have hfr : put_angle_in_range x = 2 * π * Int.fract (x / (2 * π)) := by
    unfold put_angle_in_range
    rw [Int.fract]
    field_simp
  constructor
  · rw [hfr]
    exact mul_nonneg h2π.le (Int.fract_nonneg _)
  · rw [hfr]
    have h1 : Int.fract (x / (2 * π)) < 1 := Int.fract_lt_one _
    nlinarith

theorem put_angle_in_range_shift (x : ℝ) :
    ∃ k : ℤ, put_angle_in_range x = x + 2 * π * k := by
  exact ⟨-⌊x / (2 * π)⌋, by unfold put_angle_in_range; push_cast; ring⟩

theorem lin_phase_range_aux_length (step : ℝ) (k : ℕ) (last : ℝ) :
    (lin_phase_range_aux step k last).length = k := by
  induction k generalizing last with
  | zero => rfl
  | succ k ih => simp [lin_phase_range_aux, ih]

theorem lin_phase_range_length (mu_min mu_max : ℝ) (n : ℕ) (hn : 1 ≤ n) :
    (lin_phase_range mu_min mu_max n true).length = n := by
  unfold lin_phase_range
  simp [lin_phase_range_aux_length]
  omega

theorem lin_phase_range_head (mu_min mu_max : ℝ) (n : ℕ) :
    (lin_phase_range mu_min mu_max n true).head? = some mu_min := rfl

theorem lin_phase_range_aux_chain (step : ℝ) (k : ℕ) (last : ℝ) :
    List.Chain' (fun p q => q = put_angle_in_range (p + step))
      (last :: lin_phase_range_aux step k last) := by
  induction k generalizing last with
  | zero => simp [lin_phase_range_aux]
  | succ k ih =>
      exact List.Chain'.cons rfl (ih (put_angle_in_range (last + step)))

/-- The branch `if |d| > pi then 2*pi - |d| else |d|` in `lin_phase_range`
computes `min |d| (2*pi - |d|)`. -/
theorem abs_diff_branch_eq_min (d : ℝ) :
    (if |d| > π then 2 * π - |d| else |d|) = min |d| (2 * π - |d|) := by
  split_ifs with h
  · rw [min_eq_right]
    linarith
  · rw [min_eq_left]
    push_neg at h
    linarith [pi_pos]

/-- With `endpoint = true`, `lin_phase_range` is the cons of `mu_min` and the
step generator with step `min |d| (2*pi - |d|) / (n - 1)`. -/
theorem lin_phase_range_eq (mu_min mu_max : ℝ) (n : ℕ) :
    lin_phase_range mu_min mu_max n true =
      mu_min :: lin_phase_range_aux
        (min |mu_max - mu_min| (2 * π - |mu_max - mu_min|) / ((n : ℝ) - 1))
        (n - 1) mu_min := by
  simp [lin_phase_range, abs_diff_branch_eq_min]

/-- Every step of `lin_phase_range` lands in `[0, 2*pi)` and is congruent
mod `2*pi` to its predecessor plus the step
`min |mu_max - mu_min| (2*pi - |mu_max - mu_min|) / (n - 1)`. -/
theorem lin_phase_range_chain (mu_min mu_max : ℝ) (n : ℕ) :
    List.Chain'
      (fun p q => q ∈ Set.Ico (0 : ℝ) (2 * π) ∧
        ∃ k : ℤ, q = p + min |mu_max - mu_min| (2 * π - |mu_max - mu_min|) /
          ((n : ℝ) - 1) + 2 * π * k)
      (lin_phase_range mu_min mu_max n true) := by
  rw [lin_phase_range_eq]
  refine (lin_phase_range_aux_chain _ (n - 1) mu_min).imp ?_
  intro p q hq
  subst hq
  refine ⟨put_angle_in_range_mem _, ?_⟩
  obtain ⟨k, hk⟩ := put_angle_in_range_shift
    (p + min |mu_max - mu_min| (2 * π - |mu_max - mu_min|) / ((n : ℝ) - 1))
  exact ⟨k, by rw [hk]⟩

/-! ## `lib/optics.py`: `PhaseController.get_phases_for_scan`

The method first reads the default phase advances `(mux0, muy0)` at the
reference wire-scanner (saving and then restoring the model fields, a
state round-trip with no net effect), then builds the scan list from those
two numbers.  The embedding therefore takes `mux0` and `muy0` as inputs and
reproduces the remaining computation verbatim.  For `scan_type` outside
`{1, 2}` the Python code crashes with a `NameError`; that case is mapped
to `[]` and is not used by any claim. -/

def get_phases_for_scan (mux0 muy0 phase_coverage : ℝ) (n_steps : ℕ)
    (scan_type : ℕ) : List (ℝ × ℝ) :=
  let n : ℕ := n_steps / 2
  let pc := radians phase_coverage
  let mux_min := put_angle_in_range (mux0 - 0.5 * pc)
  let mux_max := put_angle_in_range (mux0 + 0.5 * pc)
  let muy_min := put_angle_in_range (muy0 - 0.5 * pc)
  let muy_max := put_angle_in_range (muy0 + 0.5 * pc)
  let pair := fun (xs ys : List ℝ) => xs.zip ys
  if scan_type = 1 then
    pair (lin_phase_range mux_min mux_max n_steps)
         (lin_phase_range muy_min muy_max n_steps).reverse
  else if scan_type = 2 then
    pair (lin_phase_range mux_min mux_max n ++ List.replicate n mux0)
         (List.replicate n muy0 ++ lin_phase_range muy_min muy_max n)
  else []

/-- Wrapping a rational multiple of `pi`: the floor argument loses the
factor `pi`, so the wrap is again a multiple of `pi`. -/
theorem put_angle_in_range_rat_mul_pi (a : ℝ) :
    put_angle_in_range (a * π) = (a - 2 * ⌊a / 2⌋) * π := by
  unfold put_angle_in_range
  rw [show a * π / (2 * π) = a / 2 by
    field_simp
    ring]
  ring

/-! ## `lib/analysis.py`: covariance-matrix statistics -/

/-- Python's `math.atan2(y, x)`: the argument of the point `(x, y)`,
in `(-pi, pi]`. -/
def atan2 (y x : ℝ) : ℝ :=
  Complex.arg ⟨x, y⟩

/-- The projection-plane labels accepted by `rms_ellipse_dims`. -/
inductive Dim where
  | x | xp | y | yp
  deriving DecidableEq

/-- The dictionary `str_to_int` mapping x, xp, y, yp to 0, 1, 2, 3. -/
def str_to_int : Dim → Fin 4
  | .x => 0
  | .xp => 1
  | .y => 2
  | .yp => 3

/-- Function `rms_ellipse_dims(Sigma, dim1, dim2)` from `lib/analysis.py`: tilt angle
and semi-axes of the rms ellipse of the projection onto the
`(dim1, dim2)` plane. -/
def rms_ellipse_dims (Sigma : Matrix (Fin 4) (Fin 4) ℝ) (dim1 dim2 : Dim) :
    ℝ × ℝ × ℝ :=
  let i := str_to_int dim1
  let j := str_to_int dim2
  let sig_ii := Sigma i i
  let sig_jj := Sigma j j
  let sig_ij := Sigma i j
  let phi := -0.5 * atan2 (2 * sig_ij) (sig_ii - sig_jj)
  let sn := Real.sin phi
  let cs := Real.cos phi
  let c1 := Real.sqrt |sig_ii * cs ^ 2 + sig_jj * sn ^ 2 - 2 * sig_ij * sn * cs|
  let c2 := Real.sqrt |sig_ii * sn ^ 2 + sig_jj * cs ^ 2 + 2 * sig_ij * sn * cs|
  (phi, c1, c2)

/-- The symplectic unit `U` used by `intrinsic_emittances`. -/
def Umat : Matrix (Fin 4) (Fin 4) ℝ :=
  !![0, 1, 0, 0; -1, 0, 0, 0; 0, 0, 0, 1; 0, 0, -1, 0]

/-- Function `intrinsic_emittances(Sigma)` from `lib/analysis.py`. -/
def intrinsic_emittances (Sigma : Matrix (Fin 4) (Fin 4) ℝ) : ℝ × ℝ :=
  let SU := Sigma * Umat
  let SU2 := SU * SU
  let trSU2 := Matrix.trace SU2
  let detS := Sigma.det
  let eps_1 := 0.5 * Real.sqrt (-trSU2 + Real.sqrt (trSU2 ^ 2 - 16 * detS))
  let eps_2 := 0.5 * Real.sqrt (-trSU2 - Real.sqrt (trSU2 ^ 2 - 16 * detS))
  (eps_1, eps_2)

/-- Function `apparent_emittances(Sigma)` from `lib/analysis.py`. -/
def apparent_emittances (Sigma : Matrix (Fin 4) (Fin 4) ℝ) : ℝ × ℝ :=
  (Real.sqrt (Sigma 0 0 * Sigma 1 1 - Sigma 0 1 ^ 2),
   Real.sqrt (Sigma 2 2 * Sigma 3 3 - Sigma 2 3 ^ 2))

/-- Function `emittances(Sigma)` from `lib/analysis.py`. -/
def emittances (Sigma : Matrix (Fin 4) (Fin 4) ℝ) : ℝ × ℝ × ℝ × ℝ :=
  let (eps_x, eps_y) := apparent_emittances Sigma
  let (eps_1, eps_2) := intrinsic_emittances Sigma
  (eps_x, eps_y, eps_1, eps_2)

/-- Function `twiss2D(Sigma)` from `lib/analysis.py`, returning
`(alpha_x, alpha_y, beta_x, beta_y)`. -/
def twiss2D (Sigma : Matrix (Fin 4) (Fin 4) ℝ) : ℝ × ℝ × ℝ × ℝ :=
  let (eps_x, eps_y) := apparent_emittances Sigma
  (-Sigma 0 1 / eps_x, -Sigma 2 3 / eps_y, Sigma 0 0 / eps_x, Sigma 2 2 / eps_y)

/-- Module-level `is_positive_definite(Sigma)` from `lib/analysis.py`:
`all([e >= 0 for e in Sigma.eig().getRealEigenvalues()])`.  The Jama
eigendecomposition of a (symmetric) covariance matrix is embedded through
Mathlib's eigenvalues of a Hermitian matrix, so the symmetry proof is an
explicit argument. -/
def is_positive_definite (Sigma : Matrix (Fin 4) (Fin 4) ℝ)
    (h : Sigma.IsHermitian) : Prop :=
  ∀ i, 0 ≤ h.eigenvalues i

/-- Function `is_valid_cov(Sigma)` from `lib/analysis.py`: positive eigenvalue test,
then determinant test, then the apparent-vs-intrinsic emittance product
test. -/
def is_valid_cov (Sigma : Matrix (Fin 4) (Fin 4) ℝ)
    (h : Sigma.IsHermitian) : Prop :=
  is_positive_definite Sigma h ∧ 0 ≤ Sigma.det ∧
    (emittances Sigma).1 * (emittances Sigma).2.1 ≥
      (emittances Sigma).2.2.1 * (emittances Sigma).2.2.2

/-- The *nested* `is_positive_definite` defined inside `reconstruct` in
`lib/analysis.py`: `any([eigval < 0 for eigval in ...])` - it returns
True when some eigenvalue is negative. -/
def is_positive_definite_nested (Sigma : Matrix (Fin 4) (Fin 4) ℝ)
    (h : Sigma.IsHermitian) : Prop :=
  ∃ i, h.eigenvalues i < 0

/-- The nested `is_physical_cov` defined inside `reconstruct`: it gates the
return of the linear least-squares solution. -/
def is_physical_cov (Sigma : Matrix (Fin 4) (Fin 4) ℝ)
    (h : Sigma.IsHermitian) : Prop :=
  (is_positive_definite_nested Sigma h ∧ 0 ≤ Sigma.det) ∧
    (emittances Sigma).1 * (emittances Sigma).2.1 ≥
      (emittances Sigma).2.2.1 * (emittances Sigma).2.2.2

/-- The two ways `reconstruct(transfer_mats, moments, constr=True)` can
continue once the linear least-squares solution `Sigma` is in hand. -/
inductive ReconstructPath where
  | linear
  | nonlinearRefit
  deriving DecidableEq

open scoped Classical in
/-- The control-flow decision of `reconstruct` with `constr=True`: return
the linear least-squares `Sigma` when `is_physical_cov(Sigma)` holds,
otherwise run the nonlinear Edwards-Teng re-fit. -/
def reconstruct_path (Sigma : Matrix (Fin 4) (Fin 4) ℝ)
    (h : Sigma.IsHermitian) : ReconstructPath :=
  if is_physical_cov Sigma h then .linear else .nonlinearRefit

/-! ## `lib/analysis.py`: the Edwards-Teng construction `get_cov`
inside `reconstruct` -/

open scoped Classical in
/-- The derived coupling parameter `d` of `reconstruct.get_cov`:
`d = b*c/a` for `a` nonzero; `d = 0` when `a = 0` and `b = 0` or `c = 0`;
`none` models the `ValueError` raised when `a = 0` with `b` and `c` both
nonzero. -/
def get_cov_d (a b c : ℝ) : Option ℝ :=
  if a = 0 then
    (if b = 0 ∨ c = 0 then some 0 else none)
  else some (b * c / a)

open scoped Classical in
/-- Function `reconstruct.get_cov(eps_1, eps_2, alpha_x, alpha_y, beta_x, beta_y,
a, b, c)`: the full coupled covariance matrix `(V*C) * (E * (V*C)^T)`,
or `none` for the invalid-parameterization `ValueError`. -/
def get_cov (eps_1 eps_2 alpha_x alpha_y beta_x beta_y a b c : ℝ) :
    Option (Matrix (Fin 4) (Fin 4) ℝ) :=
  (get_cov_d a b c).map fun d =>
    let E := diagonal_matrix ![eps_1, eps_1, eps_2, eps_2]
    let V : Matrix (Fin 4) (Fin 4) ℝ :=
      !![Real.sqrt beta_x, 0, 0, 0;
         -alpha_x / Real.sqrt beta_x, 1 / Real.sqrt beta_x, 0, 0;
         0, 0, Real.sqrt beta_y, 0;
         0, 0, -alpha_y / Real.sqrt beta_y, 1 / Real.sqrt beta_y]
    let C : Matrix (Fin 4) (Fin 4) ℝ :=
      !![1, 0, a, b; 0, 1, c, d; -d, b, 1, 0; c, -a, 0, 1]
    let VC := V * C
    VC * (E * VC.transpose)

end

/-! ## `lib/optics.py`: quadrupole field access and safe live ramping

The three field domains of `PhaseController` (model scenario, live magnet,
book setpoint register) are embedded as three assignments from quad id to
field strength; the shared-power map is a function from an independent
quad id to its dependent quad ids (empty list when the quad is not a key).
Fields are exact rationals. -/

structure QuadState where
  model : String → ℚ
  live : String → ℚ
  book : String → ℚ

/-- Point update of the model domain. -/
def QuadState.setModelOne (s : QuadState) (q : String) (f : ℚ) : QuadState :=
  { s with model := fun q' => if q' = q then f else s.model q' }

/-- Point update of the live domain. -/
def QuadState.setLiveOne (s : QuadState) (q : String) (f : ℚ) : QuadState :=
  { s with live := fun q' => if q' = q then f else s.live q' }

/-- Point update of the book domain. -/
def QuadState.setBookOne (s : QuadState) (q : String) (f : ℚ) : QuadState :=
  { s with book := fun q' => if q' = q then f else s.book q' }

/-- The model branch of `set_field`: set the quad's model field and
recursively the model fields of the quads sharing its power supply.  The
Python recursion terminates because dependent quads are never themselves
keys of `shared_power`; the fuel bounds the recursion depth in the same
way. -/
def set_field_model (shared : String → List String) :
    ℕ → QuadState → String → ℚ → QuadState
  | 0, s, _, _ => s
  | fuel + 1, s, quad, field =>
      (shared quad).foldl
        (fun s dep => set_field_model shared fuel s dep field)
        (s.setModelOne quad field)

/-- Method `PhaseController.get_field(quad_id, opt)` from `lib/optics.py`;
`Except.error` models the `ValueError` raised for an unrecognized `opt`. -/
def get_field (s : QuadState) (quad : String) (opt : String) :
    Except String ℚ :=
  if opt = "model" then .ok (s.model quad)
  else if opt = "live" then .ok (s.live quad)
  else if opt = "book" then .ok (s.book quad)
  else .error "opt must be in model, live, book"

/-- Method `PhaseController.set_field(quad_id, field, opt)` from `lib/optics.py`. -/
def set_field (shared : String → List String) (s : QuadState)
    (quad : String) (field : ℚ) (opt : String) : Except String QuadState :=
  if opt = "model" then .ok (set_field_model shared 8 s quad field)
  else if opt = "live" then .ok (s.setLiveOne quad field)
  else if opt = "book" then .ok (s.setBookOne quad field)
  else .error "opt must be in model, live, book"

/-- One pass of the while loop in `set_fields` (mode `live`): for every
quad whose book value is farther than `max_frac_change * |book|` from its
target, step book and live by that bound toward the target and clear the
stop flag. -/
def ramp_iteration (max_frac_change : ℚ) (pairs : List (String × ℚ))
    (s : QuadState) : QuadState × Bool :=
  pairs.foldl
    (fun acc p =>
      let book := acc.1.book p.1
      let change_needed := p.2 - book
      let max_abs_change := max_frac_change * |book|
      if |change_needed| > max_abs_change then
        let new_field := if change_needed ≥ 0 then book + max_abs_change
                         else book - max_abs_change
        (((acc.1.setBookOne p.1 new_field).setLiveOne p.1 new_field), false)
      else acc)
    (s, true)

/-- The while loop of `set_fields` (mode `live`): run passes until one
makes no step, or `max_iters` passes have run. -/
def ramp_loop (max_frac_change : ℚ) (pairs : List (String × ℚ)) :
    ℕ → QuadState → QuadState
  | 0, s => s
  | fuel + 1, s =>
      let r := ramp_iteration max_frac_change pairs s
      if r.2 then r.1 else ramp_loop max_frac_change pairs fuel r.1

/-- The final assignment of `set_fields` (mode `live`): set book and live
to the exact target. -/
def set_exact_book_live (s : QuadState) (p : String × ℚ) : QuadState :=
  (s.setBookOne p.1 p.2).setLiveOne p.1 p.2

/-- Method `PhaseController.set_fields(quad_ids, fields, opt, max_frac_change,
max_iters, sleep_time)` from `lib/optics.py`.  The `sleep` between passes
has no effect on the field state and is not modelled.  For `opt` outside
model and live the Python method falls through: no field changes, no
error. -/
def set_fields (shared : String → List String) (s : QuadState)
    (quad_ids : List String) (fields : List ℚ) (opt : String)
    (max_frac_change : ℚ) (max_iters : ℕ) : QuadState :=
  if opt = "model" then
    (quad_ids.zip fields).foldl
      (fun s p => set_field_model shared 8 s p.1 p.2) s
  else if opt = "live" then
    let s := ramp_loop max_frac_change (quad_ids.zip fields) max_iters s
    (quad_ids.zip fields).foldl set_exact_book_live s
  else s

/-! ## `lib/analysis.py`: `BeamStats` and the broken
`BeamStats.rms_ellipse_dims` method

`BeamStats.rms_ellipse_dims` is declared as `def rms_ellipse_dims(dim1,
dim2)` - without a `self` parameter - while its body reads `self.Sigma`.
To settle what an invocation does, the Python calling convention is
embedded explicitly: a bound-method call on an instance prepends the
instance to the positional arguments and raises `TypeError` when the
count does not match the declared parameter list; a name in the body that
is bound neither by a parameter nor in an enclosing scope raises
`NameError`. -/

noncomputable section

structure BeamStats where
  Sigma : Matrix (Fin 4) (Fin 4) ℝ
  eps_x : ℝ
  eps_y : ℝ
  eps_1 : ℝ
  eps_2 : ℝ
  alpha_x : ℝ
  alpha_y : ℝ
  beta_x : ℝ
  beta_y : ℝ
  coupling_coeff : ℝ

/-- The `BeamStats` constructor from `lib/analysis.py`. -/
def mkBeamStats (Sigma : Matrix (Fin 4) (Fin 4) ℝ) : BeamStats :=
  let (eps_x, eps_y) := apparent_emittances Sigma
  let (eps_1, eps_2) := intrinsic_emittances Sigma
  let (alpha_x, alpha_y, beta_x, beta_y) := twiss2D Sigma
  { Sigma := Sigma
    eps_x := eps_x, eps_y := eps_y, eps_1 := eps_1, eps_2 := eps_2
    alpha_x := alpha_x, alpha_y := alpha_y
    beta_x := beta_x, beta_y := beta_y
    coupling_coeff := 1 - Real.sqrt (eps_1 * eps_2 / (eps_x * eps_y)) }

/-- Outcome of evaluating a Python call. -/
inductive PyOutcome (α : Type) where
  | ok (val : α)
  | typeError (msg : String)
  | nameError (msg : String)
  deriving DecidableEq

/-- A Python value appearing in a call to `BeamStats.rms_ellipse_dims`. -/
inductive PyVal where
  | stats (b : BeamStats)
  | dim (d : Dim)

/-- The parameter list that `BeamStats.rms_ellipse_dims` declares in the
source: `(dim1, dim2)` - no `self`. -/
def beamStats_rms_ellipse_dims_params : List String := ["dim1", "dim2"]

/-- The body of `BeamStats.rms_ellipse_dims`: it evaluates
`rms_ellipse_dims(self.Sigma, dim1, dim2)`, so it first resolves the free
name `self`, which must come from the environment (it is neither a
module-level name nor bound in the class body). -/
def rms_ellipse_dims_method_body (env : List (String × PyVal)) :
    PyOutcome (ℝ × ℝ × ℝ) :=
  match env.lookup "self" with
  | none => .nameError "name self is not defined"
  | some (PyVal.dim _) => .typeError "Dim has no attribute Sigma"
  | some (PyVal.stats b) =>
      match env.lookup "dim1", env.lookup "dim2" with
      | some (PyVal.dim d1), some (PyVal.dim d2) =>
          .ok (rms_ellipse_dims b.Sigma d1 d2)
      | _, _ => .nameError "dimension argument is not bound"

/-- Python positional-call semantics: check the arity against the declared
parameter list, then run the body with the parameters bound. -/
def py_call (params : List String) (args : List PyVal)
    (body : List (String × PyVal) → PyOutcome (ℝ × ℝ × ℝ)) :
    PyOutcome (ℝ × ℝ × ℝ) :=
  if params.length = args.length then body (params.zip args)
  else .typeError "wrong number of positional arguments"

/-- A bound-method invocation `inst.rms_ellipse_dims(dim1, dim2)`: the
instance is prepended to the explicit arguments. -/
def call_BeamStats_rms_ellipse_dims (inst : BeamStats) (dim1 dim2 : Dim) :
    PyOutcome (ℝ × ℝ × ℝ) :=
  py_call beamStats_rms_ellipse_dims_params
    [PyVal.stats inst, PyVal.dim dim1, PyVal.dim dim2]
    rms_ellipse_dims_method_body

end

/-! ## Claim theorems -/

/-- C8: in the Edwards-Teng construction `reconstruct.get_cov`, the derived
parameter `d` equals `b*c/a` whenever `a` is nonzero; when `a = 0` and
`b = 0` or `c = 0`, `d = 0`; and the construction fails with the
invalid-parameterization error exactly when `a = 0` while both `b` and `c`
are nonzero. -/
theorem claim_C8_get_cov_d (e1 e2 ax ay bx bY a b c : ℝ) :
    (a ≠ 0 → get_cov_d a b c = some (b * c / a)) ∧
    (a = 0 → (b = 0 ∨ c = 0) → get_cov_d a b c = some 0) ∧
    (get_cov e1 e2 ax ay bx bY a b c = none ↔ a = 0 ∧ b ≠ 0 ∧ c ≠ 0) := by
  refine ⟨fun ha => ?_, fun ha hbc => ?_, ?_⟩
  · simp [get_cov_d, ha]
  · simp [get_cov_d, ha, hbc]
  · rw [get_cov, Option.map_eq_none']
    unfold get_cov_d
    split_ifs with h1 h2
    · simp only [reduceCtorEq, false_iff]
      tauto
    · push_neg at h2
      simp only [true_iff]
      exact ⟨h1, h2⟩
    · simp only [reduceCtorEq, false_iff]
      tauto

/-- C8 witness: concrete evaluations of the three cases. -/
theorem claim_C8_get_cov_d_witness :
    get_cov_d 2 3 4 = some (3 * 4 / 2) ∧ get_cov_d 0 0 4 = some 0 ∧
      (get_cov 1 1 0 0 1 1 0 3 4 = none ↔
        (0 : ℝ) = 0 ∧ (3 : ℝ) ≠ 0 ∧ (4 : ℝ) ≠ 0) :=
  ⟨(claim_C8_get_cov_d 1 1 0 0 1 1 2 3 4).1 (by norm_num),
   (claim_C8_get_cov_d 1 1 0 0 1 1 0 0 4).2.1 rfl (Or.inl rfl),
   (claim_C8_get_cov_d 1 1 0 0 1 1 0 3 4).2.2⟩

/-- C10: every bound-method invocation of `BeamStats.rms_ellipse_dims`
fails: the method declares only `(dim1, dim2)` but the call passes the
instance plus two dimensions (a `TypeError`), and even a call that reaches
the body fails on the unbound name `self` (a `NameError`).  No call
succeeds. -/
theorem claim_C10_beamstats_method_broken (inst : BeamStats) (d1 d2 : Dim) :
    call_BeamStats_rms_ellipse_dims inst d1 d2 =
      PyOutcome.typeError "wrong number of positional arguments" ∧
    py_call beamStats_rms_ellipse_dims_params [PyVal.dim d1, PyVal.dim d2]
        rms_ellipse_dims_method_body =
      PyOutcome.nameError "name self is not defined" := by
  constructor
  · rfl
  · rfl

/-- C9: `set_fields` with an `opt` other than model or live (book
included) silently leaves the state unchanged and raises no error, while
`set_field` accepts book and both `set_field` and `get_field` raise the
invalid-option error for any mode outside model, live, book. -/
theorem claim_C9_set_fields_silent_noop :
    (∀ (shared : String → List String) (s : QuadState)
        (quad_ids : List String) (fields : List ℚ) (opt : String)
        (frac : ℚ) (iters : ℕ),
        opt ≠ "model" → opt ≠ "live" →
        set_fields shared s quad_ids fields opt frac iters = s) ∧
    (∀ (shared : String → List String) (s : QuadState) (q : String) (f : ℚ),
        ∃ s', set_field shared s q f "book" = .ok s') ∧
    (∀ (shared : String → List String) (s : QuadState) (q : String) (f : ℚ)
        (opt : String), opt ≠ "model" → opt ≠ "live" → opt ≠ "book" →
        (∃ e, set_field shared s q f opt = .error e) ∧
        (∃ e, get_field s q opt = .error e)) := by
  refine ⟨fun shared s quad_ids fields opt frac iters h1 h2 => ?_,
          fun shared s q f => ?_, fun shared s q f opt h1 h2 h3 => ?_⟩
  · simp [set_fields, h1, h2]
  · exact ⟨s.setBookOne q f, by simp [set_field]⟩
  · exact ⟨⟨"opt must be in model, live, book",
             by simp [set_field, h1, h2, h3]⟩,
           ⟨"opt must be in model, live, book",
             by simp [get_field, h1, h2, h3]⟩⟩

/-- C9 witness: with `opt = "book"` the state is untouched and no error is
raised, while `set_field` succeeds for book and errors for a junk mode. -/
theorem claim_C9_set_fields_silent_noop_witness :
    set_fields (fun _ => []) ⟨fun _ => 0, fun _ => 0, fun _ => 0⟩
        ["Q"] [1] "book" (1/100) 100 =
      (⟨fun _ => 0, fun _ => 0, fun _ => 0⟩ : QuadState) ∧
    (∃ s', set_field (fun _ => []) ⟨fun _ => 0, fun _ => 0, fun _ => 0⟩
        "Q" 1 "book" = .ok s') ∧
    (∃ e, set_field (fun _ => []) ⟨fun _ => 0, fun _ => 0, fun _ => 0⟩
        "Q" 1 "junk" = .error e) ∧
    (∃ e, get_field ⟨fun _ => 0, fun _ => 0, fun _ => 0⟩ "Q" "junk" =
        .error e) := by
  have h := claim_C9_set_fields_silent_noop
  have h3 := h.2.2 (fun _ => []) ⟨fun _ => 0, fun _ => 0, fun _ => 0⟩
    "Q" 1 "junk" (by decide) (by decide) (by decide)
  exact ⟨h.1 (fun _ => []) _ ["Q"] [1] "book" (1/100) 100
    (by decide) (by decide), h.2.1 (fun _ => []) _ "Q" 1, h3.1, h3.2⟩

/-! ## Helper lemmas for the final exact-target assignment of `set_fields` -/

theorem map_fst_zip_sublist {α β : Type} (l1 : List α) (l2 : List β) :
    ((l1.zip l2).map Prod.fst).Sublist l1 := by
  induction l1 generalizing l2 with
  | nil => simp
  | cons a l1 ih =>
      cases l2 with
      | nil => simp
      | cons b l2 => simpa using (ih l2).cons₂ a

theorem foldl_set_exact_not_mem (pairs : List (String × ℚ)) (s : QuadState)
    (q : String) (hq : q ∉ pairs.map Prod.fst) :
    (pairs.foldl set_exact_book_live s).book q = s.book q ∧
    (pairs.foldl set_exact_book_live s).live q = s.live q := by
  induction pairs generalizing s with
  | nil => exact ⟨rfl, rfl⟩
  | cons p ps ih =>
      simp only [List.map_cons, List.mem_cons, not_or] at hq
      rw [List.foldl_cons]
      have h := ih (set_exact_book_live s p) hq.2
      refine ⟨h.1.trans ?_, h.2.trans ?_⟩ <;>
        simp [set_exact_book_live, QuadState.setBookOne,
          QuadState.setLiveOne, hq.1]

theorem foldl_set_exact_mem (pairs : List (String × ℚ)) (s : QuadState)
    (q : String) (f : ℚ) (hmem : (q, f) ∈ pairs)
    (hnd : (pairs.map Prod.fst).Nodup) :
    (pairs.foldl set_exact_book_live s).book q = f ∧
    (pairs.foldl set_exact_book_live s).live q = f := by
  induction pairs generalizing s with
  | nil => cases hmem
  | cons p ps ih =>
      rw [List.foldl_cons]
      simp only [List.map_cons, List.nodup_cons] at hnd
      rcases List.mem_cons.mp hmem with h | h
      · subst h
        have hq : q ∉ ps.map Prod.fst := hnd.1
        have hnm :=
          foldl_set_exact_not_mem ps (set_exact_book_live s (q, f)) q hq
        refine ⟨hnm.1.trans ?_, hnm.2.trans ?_⟩ <;>
          simp [set_exact_book_live, QuadState.setBookOne, QuadState.setLiveOne]
      · exact ih (set_exact_book_live s p) h hnd.2

/-- C4: (a) in live mode with one quad at book value 100, target 110 and
`max_frac_change = 0.01`, the first ramp pass moves the book value to at
most 101 (in fact exactly 101); (b) for every state and target list, once
the ramp loop has exited, `set_fields` leaves every book and live value at
exactly its target field. -/
theorem claim_C4_safe_ramp :
    ((ramp_iteration (1/100) [("Q", 110)]
        ⟨fun _ => 100, fun _ => 100, fun _ => 100⟩).1.book "Q" ≤ 101 ∧
     (ramp_iteration (1/100) [("Q", 110)]
        ⟨fun _ => 100, fun _ => 100, fun _ => 100⟩).1.book "Q" = 101) ∧
    (∀ (shared : String → List String) (s : QuadState)
        (quad_ids : List String) (fields : List ℚ) (frac : ℚ) (iters : ℕ)
        (q : String) (f : ℚ), quad_ids.Nodup →
        (q, f) ∈ quad_ids.zip fields →
        (set_fields shared s quad_ids fields "live" frac iters).book q = f ∧
        (set_fields shared s quad_ids fields "live" frac iters).live q = f) := by
  constructor
  · constructor
    · norm_num [ramp_iteration, QuadState.setBookOne, QuadState.setLiveOne]
    · norm_num [ramp_iteration, QuadState.setBookOne, QuadState.setLiveOne]
  · intro shared s quad_ids fields frac iters q f hnd hmem
    have hnd' : ((quad_ids.zip fields).map Prod.fst).Nodup :=
      hnd.sublist (map_fst_zip_sublist quad_ids fields)
    unfold set_fields
    rw [if_neg (by decide), if_pos rfl]
    exact foldl_set_exact_mem _ _ q f hmem hnd'

/-- C4 witness: a concrete live `set_fields` call ends with book and live
at the exact target. -/
theorem claim_C4_safe_ramp_witness :
    (set_fields (fun _ => []) ⟨fun _ => 0, fun _ => 0, fun _ => 0⟩
        ["Q"] [5] "live" (1/100) 3).book "Q" = 5 ∧
    (set_fields (fun _ => []) ⟨fun _ => 0, fun _ => 0, fun _ => 0⟩
        ["Q"] [5] "live" (1/100) 3).live "Q" = 5 :=
  claim_C4_safe_ramp.2 (fun _ => []) ⟨fun _ => 0, fun _ => 0, fun _ => 0⟩
    ["Q"] [5] (1/100) 3 "Q" 5 (by decide) (by decide)

/-- C6: for every covariance matrix whose apparent emittances are nonzero,
the 2D Twiss parameters of `twiss2D` satisfy `beta_x * eps_x = Sigma[0][0]`
and `alpha_x * eps_x = -Sigma[0][1]`, and the corresponding identities in
the vertical plane. -/
theorem claim_C6_twiss2D_consistent (Sigma : Matrix (Fin 4) (Fin 4) ℝ)
    (hx : (apparent_emittances Sigma).1 ≠ 0)
    (hy : (apparent_emittances Sigma).2 ≠ 0) :
    (twiss2D Sigma).2.2.1 * (apparent_emittances Sigma).1 = Sigma 0 0 ∧
    (twiss2D Sigma).1 * (apparent_emittances Sigma).1 = -Sigma 0 1 ∧
    (twiss2D Sigma).2.2.2 * (apparent_emittances Sigma).2 = Sigma 2 2 ∧
    (twiss2D Sigma).2.1 * (apparent_emittances Sigma).2 = -Sigma 2 3 := by
  unfold twiss2D
  exact ⟨div_mul_cancel₀ _ hx, div_mul_cancel₀ _ hx,
         div_mul_cancel₀ _ hy, div_mul_cancel₀ _ hy⟩

/-- C6 witness: the identity covariance matrix has apparent emittances
`(1, 1)` and satisfies the four Twiss identities. -/
theorem claim_C6_twiss2D_consistent_witness :
    (twiss2D 1).2.2.1 * (apparent_emittances 1).1 =
        (1 : Matrix (Fin 4) (Fin 4) ℝ) 0 0 ∧
    (twiss2D 1).1 * (apparent_emittances 1).1 =
        -(1 : Matrix (Fin 4) (Fin 4) ℝ) 0 1 ∧
    (twiss2D 1).2.2.2 * (apparent_emittances 1).2 =
        (1 : Matrix (Fin 4) (Fin 4) ℝ) 2 2 ∧
    (twiss2D 1).2.1 * (apparent_emittances 1).2 =
        -(1 : Matrix (Fin 4) (Fin 4) ℝ) 2 3 := by
  have h1 : (apparent_emittances (1 : Matrix (Fin 4) (Fin 4) ℝ)).1 ≠ 0 := by
    simp [apparent_emittances, Matrix.one_apply]
  have h2 : (apparent_emittances (1 : Matrix (Fin 4) (Fin 4) ℝ)).2 ≠ 0 := by
    simp [apparent_emittances, Matrix.one_apply]
  exact claim_C6_twiss2D_consistent 1 h1 h2

/-! ## C2: `lin_phase_range` -/

theorem floor_seven_div_two_pi : ⌊(7 : ℝ) / (2 * π)⌋ = 1 := by
  rw [Int.floor_eq_iff]
  constructor
  · rw [le_div_iff₀ (by positivity)]
    push_cast
    nlinarith [pi_lt_d2]
  · rw [div_lt_iff₀ (by positivity)]
    push_cast
    nlinarith [pi_gt_three]

theorem put_angle_in_range_seven : put_angle_in_range 7 = 7 - 2 * π := by
  unfold put_angle_in_range
  rw [floor_seven_div_two_pi]
  push_cast
  ring

theorem lin_phase_range_seven :
    lin_phase_range 7 7 2 true = [7, 7 - 2 * π] := by
  rw [lin_phase_range_eq]
  have hmin : min |(7 : ℝ) - 7| (2 * π - |(7 : ℝ) - 7|) / (((2 : ℕ) : ℝ) - 1)
      = 0 := by
    rw [show |(7 : ℝ) - 7| = 0 by norm_num, min_eq_left (by linarith [pi_pos])]
    norm_num
  rw [hmin]
  show _ = [7, 7 - 2 * π]
  simp [lin_phase_range_aux, put_angle_in_range_seven]

/-- C2 counterexample: at `mu_min = mu_max = 7`, `n = 2`, the first element
of `lin_phase_range` is `7`, not `7` wrapped into `[0, 2*pi)`, and the
absolute change between the two consecutive elements is `2*pi`, not the
claimed step `min |diff| (2*pi - |diff|) / (n-1) = 0`. -/
theorem claim_C2_counterexample :
    (lin_phase_range 7 7 2 true).head? ≠ some (put_angle_in_range 7) ∧
    ¬ List.Chain'
        (fun p q => |q - p| =
          min |(7 : ℝ) - 7| (2 * π - |(7 : ℝ) - 7|) / ((2 : ℝ) - 1))
        (lin_phase_range 7 7 2 true) := by
  constructor
  · rw [lin_phase_range_seven, put_angle_in_range_seven]
    intro h
    have h7 : (7 : ℝ) = 7 - 2 * π := Option.some_injective _ h
    nlinarith [pi_pos]
  · rw [lin_phase_range_seven]
    intro h
    have hstep := (List.chain'_cons.mp h).1
    rw [show (7 : ℝ) - 2 * π - 7 = -(2 * π) by ring, abs_neg,
      abs_of_nonneg (by positivity), show |(7 : ℝ) - 7| = 0 by norm_num,
      min_eq_left (by linarith [pi_pos])] at hstep
    have : (2 : ℝ) * π = 0 := by
      rw [hstep]
      norm_num
    nlinarith [pi_pos]

/-- C2 (amended): for `n >= 2`, `lin_phase_range(mu_min, mu_max, n,
endpoint=True)` returns a sequence of length `n` whose first element is
`mu_min` itself (unwrapped), and in which every later element lies in
`[0, 2*pi)` and differs from its predecessor by the step
`min(|mu_max - mu_min|, 2*pi - |mu_max - mu_min|)/(n-1)` up to an integer
multiple of `2*pi`; the absolute change equals the step only when no wrap
occurs. -/
theorem claim_C2_lin_phase_range (mu_min mu_max : ℝ) (n : ℕ) (hn : 2 ≤ n) :
    (lin_phase_range mu_min mu_max n true).length = n ∧
    (lin_phase_range mu_min mu_max n true).head? = some mu_min ∧
    List.Chain'
      (fun p q => q ∈ Set.Ico (0 : ℝ) (2 * π) ∧
        ∃ k : ℤ, q = p + min |mu_max - mu_min| (2 * π - |mu_max - mu_min|) /
          ((n : ℝ) - 1) + 2 * π * k)
      (lin_phase_range mu_min mu_max n true) :=
  ⟨lin_phase_range_length mu_min mu_max n (by omega),
   lin_phase_range_head mu_min mu_max n,
   lin_phase_range_chain mu_min mu_max n⟩

/-- C2 witness: the amended statement at `mu_min = 0`, `mu_max = 1`,
`n = 2`. -/
theorem claim_C2_lin_phase_range_witness :
    (lin_phase_range 0 1 2 true).length = 2 ∧
    (lin_phase_range 0 1 2 true).head? = some 0 ∧
    List.Chain'
      (fun p q => q ∈ Set.Ico (0 : ℝ) (2 * π) ∧
        ∃ k : ℤ, q = p + min |(1 : ℝ) - 0| (2 * π - |(1 : ℝ) - 0|) /
          ((2 : ℝ) - 1) + 2 * π * k)
      (lin_phase_range 0 1 2 true) := by
  have h := claim_C2_lin_phase_range 0 1 2 (by norm_num)
  norm_num at h ⊢
  exact h

/-! ## C5: `rms_ellipse_dims` on a diagonal block -/

theorem atan2_zero_of_nonneg {x : ℝ} (hx : 0 ≤ x) : atan2 0 x = 0 :=
  Complex.arg_ofReal_of_nonneg hx

theorem atan2_zero_of_neg {x : ℝ} (hx : x < 0) : atan2 0 x = π :=
  Complex.arg_ofReal_of_neg hx

/-- Behaviour of `rms_ellipse_dims` when the cross moment vanishes: with
`sig_ii >= sig_jj` the tilt is `0` and the semi-axes are
`sqrt |sig_ii|, sqrt |sig_jj|`; with `sig_ii < sig_jj` the zero of
`atan2` flips to `pi`, the tilt becomes `-pi/2` and the semi-axes swap. -/
theorem rms_ellipse_dims_diag_cases (Sigma : Matrix (Fin 4) (Fin 4) ℝ)
    (d1 d2 : Dim)
    (hij : Sigma (str_to_int d1) (str_to_int d2) = 0) :
    (Sigma (str_to_int d2) (str_to_int d2) ≤
        Sigma (str_to_int d1) (str_to_int d1) →
      rms_ellipse_dims Sigma d1 d2 =
        (0, Real.sqrt |Sigma (str_to_int d1) (str_to_int d1)|,
            Real.sqrt |Sigma (str_to_int d2) (str_to_int d2)|)) ∧
    (Sigma (str_to_int d1) (str_to_int d1) <
        Sigma (str_to_int d2) (str_to_int d2) →
      rms_ellipse_dims Sigma d1 d2 =
        (-(π / 2), Real.sqrt |Sigma (str_to_int d2) (str_to_int d2)|,
            Real.sqrt |Sigma (str_to_int d1) (str_to_int d1)|)) := by
  constructor
  · intro hge
    have harg : atan2 0 (Sigma (str_to_int d1) (str_to_int d1) -
        Sigma (str_to_int d2) (str_to_int d2)) = 0 :=
      atan2_zero_of_nonneg (by linarith)
    simp only [rms_ellipse_dims, hij, mul_zero, harg, neg_zero, zero_mul,
      Real.sin_zero, Real.cos_zero]
    norm_num
  · intro hlt
    have harg : atan2 0 (Sigma (str_to_int d1) (str_to_int d1) -
        Sigma (str_to_int d2) (str_to_int d2)) = π :=
      atan2_zero_of_neg (by linarith)
    have hphi : (-0.5 : ℝ) * π = -(π / 2) := by ring
    simp only [rms_ellipse_dims, hij, mul_zero, harg, hphi, Real.sin_neg,
      Real.cos_neg, Real.sin_pi_div_two, Real.cos_pi_div_two]
    norm_num

/-- C5 counterexample: for the diagonal covariance matrix with
`sig_xx = 0`, `sig_yy = 1` (both diagonal entries non-negative,
`sig_xy = 0`), `rms_ellipse_dims` on the x-y plane does not return
`(phi, c1, c2) = (0, sqrt sig_xx, sqrt sig_yy)`: it returns
`(-pi/2, 1, 0)`. -/
theorem claim_C5_counterexample :
    rms_ellipse_dims (Matrix.diagonal ![0, 0, 1, 0]) Dim.x Dim.y ≠
      (0, Real.sqrt 0, Real.sqrt 1) := by
  have h00 : (Matrix.diagonal ![(0 : ℝ), 0, 1, 0]) (str_to_int Dim.x)
      (str_to_int Dim.x) = 0 := by
    simp [str_to_int, Matrix.diagonal_apply_eq]
  have h22 : (Matrix.diagonal ![(0 : ℝ), 0, 1, 0]) (str_to_int Dim.y)
      (str_to_int Dim.y) = 1 := by
    simp [str_to_int, Matrix.diagonal_apply_eq]
  have h02 : (Matrix.diagonal ![(0 : ℝ), 0, 1, 0]) (str_to_int Dim.x)
      (str_to_int Dim.y) = 0 := by
    simp [str_to_int]
  have hcase := (rms_ellipse_dims_diag_cases _ Dim.x Dim.y h02).2
  rw [h00, h22] at hcase
  rw [hcase (by norm_num)]
  intro h
  have h1 : -(π / 2) = 0 := congrArg Prod.fst h
  nlinarith [pi_pos]

/-- C5 (amended): for a symmetric covariance matrix with `sig_ij = 0` and
non-negative diagonal entries, `rms_ellipse_dims` returns `phi = 0`,
`c1 = sqrt sig_ii`, `c2 = sqrt sig_jj` exactly when `sig_ii >= sig_jj`;
when `sig_ii < sig_jj` the returned tilt is `-pi/2` and the semi-axes are
swapped: `c1 = sqrt sig_jj`, `c2 = sqrt sig_ii`. -/
theorem claim_C5_rms_ellipse_dims (Sigma : Matrix (Fin 4) (Fin 4) ℝ)
    (d1 d2 : Dim)
    (hij : Sigma (str_to_int d1) (str_to_int d2) = 0)
    (hii : 0 ≤ Sigma (str_to_int d1) (str_to_int d1))
    (hjj : 0 ≤ Sigma (str_to_int d2) (str_to_int d2)) :
    (Sigma (str_to_int d2) (str_to_int d2) ≤
        Sigma (str_to_int d1) (str_to_int d1) →
      rms_ellipse_dims Sigma d1 d2 =
        (0, Real.sqrt (Sigma (str_to_int d1) (str_to_int d1)),
            Real.sqrt (Sigma (str_to_int d2) (str_to_int d2)))) ∧
    (Sigma (str_to_int d1) (str_to_int d1) <
        Sigma (str_to_int d2) (str_to_int d2) →
      rms_ellipse_dims Sigma d1 d2 =
        (-(π / 2), Real.sqrt (Sigma (str_to_int d2) (str_to_int d2)),
            Real.sqrt (Sigma (str_to_int d1) (str_to_int d1)))) := by
  have h := rms_ellipse_dims_diag_cases Sigma d1 d2 hij
  rw [abs_of_nonneg hii, abs_of_nonneg hjj] at h
  exact h

/-- C5 witness: the identity matrix on the x-y plane (equal diagonal
entries) yields tilt `0` and unit semi-axes. -/
theorem claim_C5_rms_ellipse_dims_witness :
    rms_ellipse_dims (1 : Matrix (Fin 4) (Fin 4) ℝ) Dim.x Dim.y =
      (0, Real.sqrt ((1 : Matrix (Fin 4) (Fin 4) ℝ) 0 0),
          Real.sqrt ((1 : Matrix (Fin 4) (Fin 4) ℝ) 2 2)) := by
  have h := claim_C5_rms_ellipse_dims (1 : Matrix (Fin 4) (Fin 4) ℝ)
    Dim.x Dim.y (by simp [str_to_int, Matrix.one_apply])
    (by simp [str_to_int, Matrix.one_apply])
    (by simp [str_to_int, Matrix.one_apply])
  exact h.1 (by simp [str_to_int])

/-! ## C3: `get_phases_for_scan` with `scan_type = 1` -/

theorem get_phases_for_scan_one_eq (mux0 muy0 pc : ℝ) (n : ℕ) :
    get_phases_for_scan mux0 muy0 pc n 1 =
      (lin_phase_range (put_angle_in_range (mux0 - 0.5 * radians pc))
        (put_angle_in_range (mux0 + 0.5 * radians pc)) n true).zip
      (lin_phase_range (put_angle_in_range (muy0 - 0.5 * radians pc))
        (put_angle_in_range (muy0 + 0.5 * radians pc)) n true).reverse := by
  simp [get_phases_for_scan]

/-- Evaluation rule for the wrap of a rational multiple of `pi`, given the
value of the floor. -/
theorem put_angle_floor (a : ℝ) (k : ℤ) (h1 : (k : ℝ) ≤ a / 2)
    (h2 : a / 2 < (k : ℝ) + 1) :
    put_angle_in_range (a * π) = (a - 2 * (k : ℝ)) * π := by
  rw [put_angle_in_range_rat_mul_pi]
  have hfl : ⌊a / 2⌋ = k := by
    rw [Int.floor_eq_iff]
    exact ⟨h1, by exact_mod_cast h2⟩
  rw [hfl]

/-- The x-phase sweep of the counterexample scan: default phase 0,
coverage 180 degrees, 6 steps.  The window is `[3*pi/2, pi/2]` and the
sweep wraps past `2*pi` between the third and fourth step. -/
theorem lin_phase_range_wrap_eval :
    lin_phase_range ((3 / 2) * π) ((1 / 2) * π) 6 true =
      [(3 / 2) * π, (17 / 10) * π, (19 / 10) * π,
       (1 / 10) * π, (3 / 10) * π, (1 / 2) * π] := by
  have hstep : min |(1 / 2) * π - (3 / 2) * π|
      (2 * π - |(1 / 2) * π - (3 / 2) * π|) / (((6 : ℕ) : ℝ) - 1) = π / 5 := by
    rw [show (1 / 2 : ℝ) * π - (3 / 2) * π = -π by ring, abs_neg,
      abs_of_nonneg pi_pos.le, show 2 * π - π = π by ring, min_self]
    norm_num
  have e1 : put_angle_in_range ((3 / 2) * π + π / 5) = (17 / 10) * π := by
    rw [show (3 / 2 : ℝ) * π + π / 5 = (17 / 10) * π by ring,
      put_angle_floor (17 / 10) 0 (by norm_num) (by norm_num)]
    norm_num
  have e2 : put_angle_in_range ((17 / 10) * π + π / 5) = (19 / 10) * π := by
    rw [show (17 / 10 : ℝ) * π + π / 5 = (19 / 10) * π by ring,
      put_angle_floor (19 / 10) 0 (by norm_num) (by norm_num)]
    norm_num
  have e3 : put_angle_in_range ((19 / 10) * π + π / 5) = (1 / 10) * π := by
    rw [show (19 / 10 : ℝ) * π + π / 5 = (21 / 10) * π by ring,
      put_angle_floor (21 / 10) 1 (by norm_num) (by norm_num)]
    norm_num
  have e4 : put_angle_in_range ((1 / 10) * π + π / 5) = (3 / 10) * π := by
    rw [show (1 / 10 : ℝ) * π + π / 5 = (3 / 10) * π by ring,
      put_angle_floor (3 / 10) 0 (by norm_num) (by norm_num)]
    norm_num
  have e5 : put_angle_in_range ((3 / 10) * π + π / 5) = (1 / 2) * π := by
    rw [show (3 / 10 : ℝ) * π + π / 5 = (5 / 10) * π by ring,
      put_angle_floor (5 / 10) 0 (by norm_num) (by norm_num)]
    norm_num
  rw [lin_phase_range_eq, hstep]
  show (3 / 2) * π :: lin_phase_range_aux (π / 5) 5 ((3 / 2) * π) = _
  rw [show lin_phase_range_aux (π / 5) 5 ((3 / 2) * π) =
        put_angle_in_range ((3 / 2) * π + π / 5) ::
          lin_phase_range_aux (π / 5) 4
            (put_angle_in_range ((3 / 2) * π + π / 5)) from rfl, e1,
      show lin_phase_range_aux (π / 5) 4 ((17 / 10) * π) =
        put_angle_in_range ((17 / 10) * π + π / 5) ::
          lin_phase_range_aux (π / 5) 3
            (put_angle_in_range ((17 / 10) * π + π / 5)) from rfl, e2,
      show lin_phase_range_aux (π / 5) 3 ((19 / 10) * π) =
        put_angle_in_range ((19 / 10) * π + π / 5) ::
          lin_phase_range_aux (π / 5) 2
            (put_angle_in_range ((19 / 10) * π + π / 5)) from rfl, e3,
      show lin_phase_range_aux (π / 5) 2 ((1 / 10) * π) =
        put_angle_in_range ((1 / 10) * π + π / 5) ::
          lin_phase_range_aux (π / 5) 1
            (put_angle_in_range ((1 / 10) * π + π / 5)) from rfl, e4,
      show lin_phase_range_aux (π / 5) 1 ((3 / 10) * π) =
        put_angle_in_range ((3 / 10) * π + π / 5) ::
          lin_phase_range_aux (π / 5) 0
            (put_angle_in_range ((3 / 10) * π + π / 5)) from rfl, e5,
      show lin_phase_range_aux (π / 5) 0 ((1 / 2) * π) = [] from rfl]

/-- C3 counterexample: with default phases `(0, 0)`, coverage 180 degrees
and `n_steps = 6` (even, >= 6), the x-phase sequence of
`get_phases_for_scan(..., scan_type=1)` wraps past `2*pi` and is neither
non-decreasing nor non-increasing step to step: it does not sweep
monotonically across the coverage window. -/
theorem claim_C3_counterexample :
    ¬ (List.Chain' (· ≤ ·) ((get_phases_for_scan 0 0 180 6 1).map Prod.fst) ∨
       List.Chain' (· ≥ ·) ((get_phases_for_scan 0 0 180 6 1).map Prod.fst)) := by
  have ha : (0 : ℝ) - 0.5 * radians 180 = (-(1 / 2)) * π := by
    unfold radians
    ring
  have hb : (0 : ℝ) + 0.5 * radians 180 = (1 / 2) * π := by
    unfold radians
    ring
  have hpa : put_angle_in_range ((0 : ℝ) - 0.5 * radians 180) = (3 / 2) * π := by
    rw [ha, put_angle_floor (-(1 / 2)) (-1) (by norm_num) (by norm_num)]
    norm_num
  have hpb : put_angle_in_range ((0 : ℝ) + 0.5 * radians 180) = (1 / 2) * π := by
    rw [hb, put_angle_floor (1 / 2) 0 (by norm_num) (by norm_num)]
    norm_num
  have hxs : (get_phases_for_scan 0 0 180 6 1).map Prod.fst =
      [(3 / 2) * π, (17 / 10) * π, (19 / 10) * π,
       (1 / 10) * π, (3 / 10) * π, (1 / 2) * π] := by
    rw [get_phases_for_scan_one_eq, List.map_fst_zip _ _ (by
      rw [lin_phase_range_length _ _ 6 (by norm_num), List.length_reverse,
        lin_phase_range_length _ _ 6 (by norm_num)]),
      hpa, hpb, lin_phase_range_wrap_eval]
  rw [hxs]
  rintro (h | h)
  · simp only [List.chain'_cons, List.chain'_singleton, and_true] at h
    have h34 : (19 / 10) * π ≤ (1 / 10) * π := h.2.2.1
    nlinarith [pi_pos]
  · simp only [List.chain'_cons, List.chain'_singleton, and_true] at h
    have h12 : (3 / 2) * π ≥ (17 / 10) * π := h.1
    nlinarith [pi_pos]

/-- C3 (amended): for every coverage, even `n_steps >= 6` and default
phases `(mux0, muy0)`, `get_phases_for_scan(..., scan_type=1)` returns
`n_steps` pairs; the x-phase sequence is the `lin_phase_range` sweep of
the coverage window centered on `mux0` (each later element wrapped into
`[0, 2*pi)` and congruent mod `2*pi` to its predecessor plus the constant
step, hence monotone only when the sweep does not wrap past `2*pi`), and
the y-phase sequence is the exact reverse of the corresponding y sweep. -/
theorem claim_C3_get_phases_for_scan (mux0 muy0 pc : ℝ) (n : ℕ)
    (hn : 6 ≤ n) (_hev : Even n) :
    (get_phases_for_scan mux0 muy0 pc n 1).length = n ∧
    (get_phases_for_scan mux0 muy0 pc n 1).map Prod.fst =
      lin_phase_range (put_angle_in_range (mux0 - 0.5 * radians pc))
        (put_angle_in_range (mux0 + 0.5 * radians pc)) n true ∧
    (get_phases_for_scan mux0 muy0 pc n 1).map Prod.snd =
      (lin_phase_range (put_angle_in_range (muy0 - 0.5 * radians pc))
        (put_angle_in_range (muy0 + 0.5 * radians pc)) n true).reverse ∧
    List.Chain'
      (fun p q => q ∈ Set.Ico (0 : ℝ) (2 * π) ∧
        ∃ k : ℤ, q = p +
          min |put_angle_in_range (mux0 + 0.5 * radians pc) -
                put_angle_in_range (mux0 - 0.5 * radians pc)|
            (2 * π - |put_angle_in_range (mux0 + 0.5 * radians pc) -
                put_angle_in_range (mux0 - 0.5 * radians pc)|) /
            ((n : ℝ) - 1) + 2 * π * k)
      ((get_phases_for_scan mux0 muy0 pc n 1).map Prod.fst) := by
  have hlenx : (lin_phase_range
      (put_angle_in_range (mux0 - 0.5 * radians pc))
      (put_angle_in_range (mux0 + 0.5 * radians pc)) n true).length = n :=
    lin_phase_range_length _ _ n (by omega)
  have hleny : ((lin_phase_range
      (put_angle_in_range (muy0 - 0.5 * radians pc))
      (put_angle_in_range (muy0 + 0.5 * radians pc)) n true).reverse).length
      = n := by
    rw [List.length_reverse]
    exact lin_phase_range_length _ _ n (by omega)
  have hfst : (get_phases_for_scan mux0 muy0 pc n 1).map Prod.fst =
      lin_phase_range (put_angle_in_range (mux0 - 0.5 * radians pc))
        (put_angle_in_range (mux0 + 0.5 * radians pc)) n true := by
    rw [get_phases_for_scan_one_eq]
    exact List.map_fst_zip _ _ (by rw [hlenx, hleny])
  refine ⟨?_, hfst, ?_, ?_⟩
  · rw [get_phases_for_scan_one_eq, List.length_zip, hlenx, hleny, min_self]
  · rw [get_phases_for_scan_one_eq]
    exact List.map_snd_zip _ _ (by rw [hlenx, hleny])
  · rw [hfst]
    exact lin_phase_range_chain _ _ n

/-- C3 witness: the amended statement at `mux0 = 1`, `muy0 = 2`,
coverage 30 degrees, `n_steps = 6`. -/
theorem claim_C3_get_phases_for_scan_witness :
    (get_phases_for_scan 1 2 30 6 1).length = 6 ∧
    (get_phases_for_scan 1 2 30 6 1).map Prod.fst =
      lin_phase_range (put_angle_in_range (1 - 0.5 * radians 30))
        (put_angle_in_range (1 + 0.5 * radians 30)) 6 true ∧
    (get_phases_for_scan 1 2 30 6 1).map Prod.snd =
      (lin_phase_range (put_angle_in_range (2 - 0.5 * radians 30))
        (put_angle_in_range (2 + 0.5 * radians 30)) 6 true).reverse ∧
    List.Chain'
      (fun p q => q ∈ Set.Ico (0 : ℝ) (2 * π) ∧
        ∃ k : ℤ, q = p +
          min |put_angle_in_range (1 + 0.5 * radians 30) -
                put_angle_in_range (1 - 0.5 * radians 30)|
            (2 * π - |put_angle_in_range (1 + 0.5 * radians 30) -
                put_angle_in_range (1 - 0.5 * radians 30)|) /
            ((6 : ℝ) - 1) + 2 * π * k)
      ((get_phases_for_scan 1 2 30 6 1).map Prod.fst) := by
  have h := claim_C3_get_phases_for_scan 1 2 30 6 (by norm_num)
    (by decide)
  norm_num at h ⊢
  exact h

/-! ## Helpers for the eigenvalue-based physicality tests (C7, C1) -/

theorem posSemidef_diag_entry_nonneg {A : Matrix (Fin 4) (Fin 4) ℝ}
    (h : A.PosSemidef) (i : Fin 4) : 0 ≤ A i i := by
  have hx := h.2 (Pi.single i 1)
  simpa [Matrix.mulVec_single, Matrix.single_dotProduct] using hx

theorem herm_smul_one (c : ℝ) :
    (c • (1 : Matrix (Fin 4) (Fin 4) ℝ)).IsHermitian := by
  rw [Matrix.smul_one_eq_diagonal]
  exact Matrix.isHermitian_diagonal _

theorem posSemidef_smul_one {c : ℝ} (hc : 0 ≤ c) :
    (c • (1 : Matrix (Fin 4) (Fin 4) ℝ)).PosSemidef := by
  rw [Matrix.smul_one_eq_diagonal]
  exact Matrix.PosSemidef.diagonal fun _ => hc

theorem eigenvalues_smul_one_nonneg {c : ℝ} (hc : 0 ≤ c) (i : Fin 4) :
    0 ≤ (herm_smul_one c).eigenvalues i :=
  (posSemidef_smul_one hc).eigenvalues_nonneg i

/-- The module-level physicality test rejects any symmetric matrix with a
negative diagonal entry: were all eigenvalues non-negative the matrix
would be positive semidefinite, forcing non-negative diagonal entries. -/
theorem not_valid_cov_of_neg_diag (Sigma : Matrix (Fin 4) (Fin 4) ℝ)
    (h : Sigma.IsHermitian) (i : Fin 4) (hneg : Sigma i i < 0) :
    ¬ is_valid_cov Sigma h := by
  intro hval
  have hpsd := Matrix.IsHermitian.posSemidef_of_eigenvalues_nonneg h hval.1
  exact absurd (posSemidef_diag_entry_nonneg hpsd i) (not_le.mpr hneg)

theorem smul_one_entry (c : ℝ) (i j : Fin 4) :
    (c • (1 : Matrix (Fin 4) (Fin 4) ℝ)) i j = if i = j then c else 0 := by
  by_cases hij : i = j
  · subst hij
    simp [Matrix.one_apply]
  · simp [Matrix.one_apply, hij]

theorem apparent_emittances_smul_one {c : ℝ} (hc : 0 ≤ c) :
    apparent_emittances (c • (1 : Matrix (Fin 4) (Fin 4) ℝ)) = (c, c) := by
  unfold apparent_emittances
  rw [smul_one_entry c 0 0, smul_one_entry c 1 1, smul_one_entry c 0 1,
    smul_one_entry c 2 2, smul_one_entry c 3 3, smul_one_entry c 2 3,
    if_pos rfl, if_pos rfl, if_pos rfl, if_pos rfl,
    if_neg (by decide : ¬((0 : Fin 4) = 1)),
    if_neg (by decide : ¬((2 : Fin 4) = 3)),
    show c * c - 0 ^ 2 = c * c by ring, Real.sqrt_mul_self hc]

theorem Umat_mul_Umat : Umat * Umat = (-1 : Matrix (Fin 4) (Fin 4) ℝ) := by
  ext i j
  fin_cases i <;> fin_cases j <;>
    simp [Umat, Matrix.mul_apply, Fin.sum_univ_four, Matrix.one_apply,
      Matrix.vecHead, Matrix.vecTail]

theorem intrinsic_emittances_smul_one {c : ℝ} (hc : 0 ≤ c) :
    intrinsic_emittances (c • (1 : Matrix (Fin 4) (Fin 4) ℝ)) = (c, c) := by
  have hSU : (c • (1 : Matrix (Fin 4) (Fin 4) ℝ)) * Umat = c • Umat := by
    rw [Matrix.smul_mul, Matrix.one_mul]
  have hSU2 : (c • Umat) * (c • Umat) =
      (c * c) • (Umat * Umat) := by
    rw [Matrix.smul_mul, Matrix.mul_smul, smul_smul]
  have htr : Matrix.trace ((c * c) • (-1 : Matrix (Fin 4) (Fin 4) ℝ)) =
      -4 * (c * c) := by
    rw [Matrix.trace_smul, Matrix.trace_neg, Matrix.trace_one]
    simp
    ring
  simp only [intrinsic_emittances]
  rw [hSU, hSU2, Umat_mul_Umat, htr, Matrix.det_smul, Matrix.det_one]
  have h1 : (-4 * (c * c)) ^ 2 - 16 * (c ^ Fintype.card (Fin 4) * 1)
      = 0 := by
    simp [Fintype.card_fin]
    ring
  rw [h1, Real.sqrt_zero]
  have h2 : -(-4 * (c * c)) + 0 = (2 * c) ^ 2 := by ring
  have h3 : -(-4 * (c * c)) - 0 = (2 * c) ^ 2 := by ring
  rw [h2, h3, Real.sqrt_sq (by linarith)]
  simp only [Prod.mk.injEq]
  constructor <;> ring

theorem emittances_smul_one {c : ℝ} (hc : 0 ≤ c) :
    emittances (c • (1 : Matrix (Fin 4) (Fin 4) ℝ)) = (c, c, c, c) := by
  simp [emittances, apparent_emittances_smul_one hc,
    intrinsic_emittances_smul_one hc]

/-- Every positive multiple of the identity passes the module-level
physicality test `is_valid_cov`. -/
theorem is_valid_cov_smul_one {c : ℝ} (hc : 0 < c) :
    is_valid_cov (c • (1 : Matrix (Fin 4) (Fin 4) ℝ)) (herm_smul_one c) := by
  refine ⟨fun i => eigenvalues_smul_one_nonneg hc.le i, ?_, ?_⟩
  · rw [Matrix.det_smul, Matrix.det_one]
    positivity
  · rw [emittances_smul_one hc.le]

/-- C7: `is_valid_cov` rejects every symmetric 4x4 covariance matrix with
a negative diagonal entry and accepts `c` times the identity for every
positive scalar `c`. -/
theorem claim_C7_is_valid_cov :
    (∀ (Sigma : Matrix (Fin 4) (Fin 4) ℝ) (h : Sigma.IsHermitian)
        (i : Fin 4), Sigma i i < 0 → ¬ is_valid_cov Sigma h) ∧
    (∀ c : ℝ, 0 < c → is_valid_cov (c • 1) (herm_smul_one c)) :=
  ⟨not_valid_cov_of_neg_diag, fun _ hc => is_valid_cov_smul_one hc⟩

/-- C7 witness: the diagonal matrix with a `-1` entry is rejected; twice
the identity is accepted. -/
theorem claim_C7_is_valid_cov_witness :
    ¬ is_valid_cov (Matrix.diagonal ![(-1 : ℝ), 1, 1, 1])
        (Matrix.isHermitian_diagonal _) ∧
    is_valid_cov ((2 : ℝ) • 1) (herm_smul_one 2) :=
  ⟨claim_C7_is_valid_cov.1 _ _ 0
      (by norm_num [Matrix.diagonal_apply_eq]),
   claim_C7_is_valid_cov.2 2 (by norm_num)⟩

/-! ## C1: the inverted physicality gate in `reconstruct` -/

theorem apparent_emittances_D :
    apparent_emittances (Matrix.diagonal ![(-1 : ℝ), -1, 1, 1]) = (1, 1) := by
  unfold apparent_emittances
  rw [show (Matrix.diagonal ![(-1 : ℝ), -1, 1, 1]) 0 0 = -1 from rfl,
    show (Matrix.diagonal ![(-1 : ℝ), -1, 1, 1]) 1 1 = -1 from rfl,
    show (Matrix.diagonal ![(-1 : ℝ), -1, 1, 1]) 0 1 = 0 from rfl,
    show (Matrix.diagonal ![(-1 : ℝ), -1, 1, 1]) 2 2 = 1 from rfl,
    show (Matrix.diagonal ![(-1 : ℝ), -1, 1, 1]) 3 3 = 1 from rfl,
    show (Matrix.diagonal ![(-1 : ℝ), -1, 1, 1]) 2 3 = 0 from rfl]
  norm_num

theorem DU_mul_DU :
    ((Matrix.diagonal ![(-1 : ℝ), -1, 1, 1]) * Umat) *
      ((Matrix.diagonal ![(-1 : ℝ), -1, 1, 1]) * Umat) =
    (-1 : Matrix (Fin 4) (Fin 4) ℝ) := by
  ext i j
  fin_cases i <;> fin_cases j <;>
    simp [Umat, Matrix.mul_apply, Fin.sum_univ_four, Matrix.diagonal_apply,
      Matrix.one_apply, Matrix.vecHead, Matrix.vecTail]

theorem det_D : (Matrix.diagonal ![(-1 : ℝ), -1, 1, 1]).det = 1 := by
  rw [Matrix.det_diagonal, Fin.prod_univ_four]
  norm_num

theorem intrinsic_emittances_D :
    intrinsic_emittances (Matrix.diagonal ![(-1 : ℝ), -1, 1, 1]) = (1, 1) := by
  simp only [intrinsic_emittances]
  rw [DU_mul_DU, Matrix.trace_neg, Matrix.trace_one, det_D]
  norm_num [Fintype.card_fin]
  rw [show (4 : ℝ) = 2 ^ 2 by norm_num, Real.sqrt_sq (by norm_num)]
  norm_num

theorem emittances_D :
    emittances (Matrix.diagonal ![(-1 : ℝ), -1, 1, 1]) = (1, 1, 1, 1) := by
  simp [emittances, apparent_emittances_D, intrinsic_emittances_D]

theorem hermD : (Matrix.diagonal ![(-1 : ℝ), -1, 1, 1]).IsHermitian :=
  Matrix.isHermitian_diagonal _

/-- The nested gate accepts the unphysical matrix `diag(-1,-1,1,1)`: some
eigenvalue is negative (as the inverted check demands), the determinant is
`1` and the emittance products tie. -/
theorem is_physical_cov_D :
    is_physical_cov (Matrix.diagonal ![(-1 : ℝ), -1, 1, 1]) hermD := by
  refine ⟨⟨?_, by rw [det_D]; norm_num⟩, by rw [emittances_D]⟩
  by_contra hno
  simp only [is_positive_definite_nested] at hno
  push_neg at hno
  have hpsd := Matrix.IsHermitian.posSemidef_of_eigenvalues_nonneg
    hermD hno
  have h00 := posSemidef_diag_entry_nonneg hpsd 0
  rw [show (Matrix.diagonal ![(-1 : ℝ), -1, 1, 1]) 0 0 = -1 from rfl] at h00
  norm_num at h00

/-- The nested gate rejects the identity: none of its eigenvalues is
negative, so the inverted positive-definiteness check fails. -/
theorem not_is_physical_cov_one :
    ¬ is_physical_cov ((1 : ℝ) • 1) (herm_smul_one 1) := by
  rintro ⟨⟨⟨i, hi⟩, -⟩, -⟩
  exact absurd hi (not_lt.mpr (eigenvalues_smul_one_nonneg zero_le_one i))

/-- C1: the physicality gate of `reconstruct(constr=True)` is inverted.
The identity matrix passes the specified physicality test (`is_valid_cov`:
all eigenvalues non-negative, determinant non-negative, apparent-emittance
product at least the intrinsic product), yet `reconstruct` does not return
it and instead runs the nonlinear Edwards-Teng re-fit; conversely
`diag(-1,-1,1,1)` fails the specified test but is returned as the linear
least-squares answer.  The cause is the nested `is_positive_definite`,
which returns True when *some* eigenvalue is negative. -/
theorem claim_C1_reconstruct_gate_inverted :
    (is_valid_cov ((1 : ℝ) • 1) (herm_smul_one 1) ∧
     reconstruct_path ((1 : ℝ) • 1) (herm_smul_one 1) =
       ReconstructPath.nonlinearRefit) ∧
    (¬ is_valid_cov (Matrix.diagonal ![(-1 : ℝ), -1, 1, 1]) hermD ∧
     reconstruct_path (Matrix.diagonal ![(-1 : ℝ), -1, 1, 1]) hermD =
       ReconstructPath.linear) := by
  refine ⟨⟨is_valid_cov_smul_one one_pos, ?_⟩,
          ⟨not_valid_cov_of_neg_diag _ _ 0
            (by rw [show (Matrix.diagonal ![(-1 : ℝ), -1, 1, 1]) 0 0 = -1
                from rfl]; norm_num), ?_⟩⟩
  · unfold reconstruct_path
    rw [if_neg not_is_physical_cov_one]
  · unfold reconstruct_path
    rw [if_pos is_physical_cov_D]
